import Mathlib

/-!
Verification of the schema-less gRPC health-check wire codec, the metadata
authentication transform and the status classification of the
`grpc-passthrough` repository.

The TypeScript source is shallowly embedded:
* `Buffer` values become `List Nat` (each element one byte, `0..255`);
* JavaScript numbers produced by the bitwise operators `|` and `<<` are
  32-bit signed integers, embedded as `Int` through explicit wrapping
  (`toInt32`, `jsOr32`, `jsShl32`; a JS shift count is masked by 31);
* `buffer[i]` returns `undefined` out of range, embedded as `Option Nat`
  (`jsIndex`);
* `buffer.subarray(b, e)` clamps its (possibly negative, end-relative)
  arguments, embedded as `jsSubarray`;
* the `while` loop of `parseProtobufResponse` is a partial function (it can
  move its cursor backwards), embedded with an explicit fuel counter that
  bounds the number of loop iterations; `none` means the fuel ran out;
* `console.warn` is embedded as an explicit `warnings` component of the
  parse result (wire type and offset that the source logs);
* `data.toString("utf8")` in Node/Bun never throws: invalid byte sequences
  are replaced by U+FFFD following the WHATWG maximal-subpart policy.  It is
  embedded as the total function `utf8Clean` on UTF-8 byte strings, and the
  `catch` branch of the source is consequently unreachable.
-/

set_option maxHeartbeats 1000000
set_option maxRecDepth 8000

namespace GrpcPassthrough

/-- Wrap an integer to an unsigned 32-bit value (JS `ToUint32`). -/
def toUInt32n (x : Int) : Nat := (x % (2 ^ 32)).toNat

/-- Wrap an integer to a signed 32-bit value (JS `ToInt32`). -/
def toInt32 (x : Int) : Int :=
  if x % (2 ^ 32) < 2 ^ 31 then x % (2 ^ 32) else x % (2 ^ 32) - 2 ^ 32

/-- JS `a | b` on numbers: both sides to 32 bits, bitwise or, signed result. -/
def jsOr32 (a b : Int) : Int :=
  toInt32 (((toUInt32n a ||| toUInt32n b : Nat) : Int))

/-- JS `a << s` on numbers: 32-bit shift, the count is masked by 31. -/
def jsShl32 (a : Int) (s : Nat) : Int :=
  toInt32 (((toUInt32n a <<< (s % 32) : Nat) : Int))

/-- JS `buf[i]` on a typed array: the byte when `0 ≤ i < length`,
`undefined` (`none`) otherwise. -/
def jsIndex (buf : List Nat) (i : Int) : Option Nat :=
  if h : 0 ≤ i ∧ i < (buf.length : Int) then
    some (buf.get ⟨i.toNat, by omega⟩)
  else none

/-- JS `buf.subarray(b, e)`: negative indices are end-relative, both are
clamped to `[0, length]`, and an empty slice results when `e ≤ b`. -/
def jsSubarray (buf : List Nat) (b e : Int) : List Nat :=
  let len : Int := buf.length
  let b' := if b < 0 then max (len + b) 0 else min b len
  let e' := if e < 0 then max (len + e) 0 else min e len
  (buf.take e'.toNat).drop b'.toNat

/-- Body of the varint loops, recursing on the number of bytes left before
the buffer end (the loop advances by one byte per iteration, so this is a
faithful rendering of the `while` loop; the zero case is reached exactly
when `offset ≥ buffer.length`, where the loop condition fails). -/
def varintAux (buf : List Nat) : Nat → Int → Int → Nat → Int × Int
  | 0, offset, value, _ => (value, offset)
  | fuel + 1, offset, value, shift =>
    if offset < (buf.length : Int) then
      match jsIndex buf offset with
      | none => (value, offset)
      | some byte =>
        let value' := jsOr32 value (jsShl32 ((byte &&& 0x7f : Nat) : Int) shift)
        if byte &&& 0x80 = 0 then (value', offset + 1)
        else varintAux buf fuel (offset + 1) value' (shift + 7)
    else (value, offset)

/-- The inner varint loop of `parseProtobufResponse` (source lines 87-96 and
106-115): reads continuation bytes starting at `offset`, accumulating with the
32-bit JS operators `value |= (byte & 0x7f) << shift`.  Returns the final
`value` and the final `offset`. -/
def varintLoop (buf : List Nat) (offset : Int) (value : Int) (shift : Nat) :
    Int × Int :=
  varintAux buf (((buf.length : Int) - offset).toNat) offset value shift

/-- The UTF-8 replacement character U+FFFD, as its UTF-8 bytes. -/
def repl : List Nat := [0xEF, 0xBF, 0xBD]

/-- Node/Bun's `buffer.toString("utf8")`, at the level of UTF-8 bytes: the
byte string of the resulting JS string.  Well-formed sequences are kept;
ill-formed ones are replaced by U+FFFD per maximal subpart (WHATWG decoder),
which is the behaviour of `Buffer#toString` — it never throws. -/
def utf8Clean : List Nat → List Nat
  | [] => []
  | b :: rest =>
    if b ≤ 0x7F then b :: utf8Clean rest
    else if 0xC2 ≤ b ∧ b ≤ 0xDF then
      match rest with
      | c1 :: r2 =>
        if 0x80 ≤ c1 ∧ c1 ≤ 0xBF then b :: c1 :: utf8Clean r2
        else repl ++ utf8Clean (c1 :: r2)
      | [] => repl
    else if 0xE0 ≤ b ∧ b ≤ 0xEF then
      match rest with
      | c1 :: r2 =>
        if (if b = 0xE0 then 0xA0 else 0x80) ≤ c1 ∧
            c1 ≤ (if b = 0xED then 0x9F else 0xBF) then
          match r2 with
          | c2 :: r3 =>
            if 0x80 ≤ c2 ∧ c2 ≤ 0xBF then b :: c1 :: c2 :: utf8Clean r3
            else repl ++ utf8Clean (c2 :: r3)
          | [] => repl
        else repl ++ utf8Clean (c1 :: r2)
      | [] => repl
    else if 0xF0 ≤ b ∧ b ≤ 0xF4 then
      match rest with
      | c1 :: r2 =>
        if (if b = 0xF0 then 0x90 else 0x80) ≤ c1 ∧
            c1 ≤ (if b = 0xF4 then 0x8F else 0xBF) then
          match r2 with
          | c2 :: r3 =>
            if 0x80 ≤ c2 ∧ c2 ≤ 0xBF then
              match r3 with
              | c3 :: r4 =>
                if 0x80 ≤ c3 ∧ c3 ≤ 0xBF then b :: c1 :: c2 :: c3 :: utf8Clean r4
                else repl ++ utf8Clean (c3 :: r4)
              | [] => repl
            else repl ++ utf8Clean (c2 :: r3)
          | [] => repl
        else repl ++ utf8Clean (c1 :: r2)
      | [] => repl
    else repl ++ utf8Clean rest

/-- A decoded field value.  The varint branch of the source stores a JS
number (`vint`); the length-delimited branch stores the UTF-8 decoded string
(`vstr`).  `vbytes` embeds the raw-`Buffer` fallback of the source's `catch`
branch; since `Buffer#toString("utf8")` never throws, the parser never
produces it. -/
inductive FieldVal where
  | vint (v : Int)
  | vstr (s : List Nat)
  | vbytes (b : List Nat)
deriving DecidableEq, Repr

/-- The record built by `parseProtobufResponse`: the generic
`field_<n>` mapping (`fields`, JS-object semantics: insertion order, an
existing key is updated in place), the semantic projections `status`,
`latency`, `error_code`, `error_message`, and the `console.warn` events
(wire type and offset) as explicit state. -/
structure ParseResult where
  fields : List (Nat × FieldVal)
  status : Option Int
  latency : Option (List Nat)
  error_code : Option (List Nat)
  error_message : Option (List Nat)
  warnings : List (Nat × Int)
deriving DecidableEq, Repr

/-- The empty `result` object at source line 73. -/
def emptyResult : ParseResult := ⟨[], none, none, none, none, []⟩

/-- JS `result[key] = v` on the generic field mapping: update in place when
the key exists, append otherwise. -/
def setField (fs : List (Nat × FieldVal)) (k : Nat) (v : FieldVal) :
    List (Nat × FieldVal) :=
  if fs.any (fun p => p.1 == k) then
    fs.map (fun p => if p.1 == k then (k, v) else p)
  else fs ++ [(k, v)]

/-- Source lines 97-101: record a varint field and the `status` projection. -/
def applyVarintField (r : ParseResult) (fieldNumber : Nat) (value : Int) :
    ParseResult :=
  { r with fields := setField r.fields fieldNumber (.vint value),
           status := if fieldNumber = 1 then some value else r.status }

/-- Source lines 120-126: record a length-delimited field (as its UTF-8
decoded string) and the `latency` / `error_code` / `error_message`
projections. -/
def applyLenField (r : ParseResult) (fieldNumber : Nat) (str : List Nat) :
    ParseResult :=
  { r with fields := setField r.fields fieldNumber (.vstr str),
           latency := if fieldNumber = 2 then some str else r.latency,
           error_code := if fieldNumber = 4 then some str else r.error_code,
           error_message := if fieldNumber = 5 then some str else r.error_message }

/-- The `while` loop of `parseProtobufResponse` (source lines 76-139).  Fuel
bounds the number of iterations; `none` means the bound was hit, so a run
that returns `none` for every fuel value diverges.  Each case mirrors the
source: wire type 0 decodes a varint and records it; wire type 2 decodes a
varint length, slices `subarray(offset, offset + length)` (the 32-bit length
may be negative, in which case `offset += length` moves the cursor
backwards), and records the UTF-8 decode of the slice; any other wire type
warns and sets `offset = buffer.length`, which exits the loop. -/
def parseLoop (buf : List Nat) : Nat → Int → ParseResult → Option ParseResult
  | fuel, offset, r =>
    if offset < (buf.length : Int) then
      match fuel with
      | 0 => none
      | fuel + 1 =>
        match jsIndex buf offset with
        | none => some r
        | some tag =>
          let fieldNumber := tag >>> 3
          let wireType := tag &&& 0x07
          if wireType = 0 then
            let vr := varintLoop buf (offset + 1) 0 0
            parseLoop buf fuel vr.2 (applyVarintField r fieldNumber vr.1)
          else if wireType = 2 then
            let vr := varintLoop buf (offset + 1) 0 0
            let data := jsSubarray buf vr.2 (vr.2 + vr.1)
            parseLoop buf fuel (vr.2 + vr.1)
              (applyLenField r fieldNumber (utf8Clean data))
          else
            some { r with warnings := r.warnings ++ [(wireType, offset)] }
    else some r

/-- `parseProtobufResponse(buffer)` (source lines 72-142), with explicit
iteration fuel. -/
def parseProtobufResponse (fuel : Nat) (buffer : List Nat) :
    Option ParseResult :=
  parseLoop buffer fuel 0 emptyResult

/-- `HealthServiceDefinition.Check.requestSerialize` (source lines 44-54):
the service name is taken as its UTF-8 bytes; an empty name yields an empty
buffer, otherwise the header is `Buffer.from([0x0a, serviceBytes.length])`
(each array element truncated to a byte, hence `% 256`) followed by the
bytes. -/
def requestSerialize (service : List Nat) : List Nat :=
  if service.length = 0 then []
  else 0x0a :: (service.length % 256) :: service

/-! ### SHA-256 and HMAC (the `node:crypto` `createHmac("sha256", ...)` used
by the source), implemented from FIPS 180-4 / RFC 2104 on byte lists. -/

/-- Right rotation of a 32-bit word. -/
def rotr32 (x n : Nat) : Nat := ((x >>> n) ||| (x <<< (32 - n))) % 2 ^ 32

/-- Addition modulo `2^32`. -/
def add32 (a b : Nat) : Nat := (a + b) % 2 ^ 32

/-- Bitwise complement of a 32-bit word. -/
def not32 (x : Nat) : Nat := x ^^^ (2 ^ 32 - 1)

def smallSigma0 (x : Nat) : Nat := (rotr32 x 7) ^^^ (rotr32 x 18) ^^^ (x >>> 3)

def smallSigma1 (x : Nat) : Nat := (rotr32 x 17) ^^^ (rotr32 x 19) ^^^ (x >>> 10)

def bigSigma0 (x : Nat) : Nat := (rotr32 x 2) ^^^ (rotr32 x 13) ^^^ (rotr32 x 22)

def bigSigma1 (x : Nat) : Nat := (rotr32 x 6) ^^^ (rotr32 x 11) ^^^ (rotr32 x 25)

def chV (e f g : Nat) : Nat := (e &&& f) ^^^ ((not32 e) &&& g)

def majV (a b c : Nat) : Nat := (a &&& b) ^^^ (a &&& c) ^^^ (b &&& c)

/-- Big-endian 32-bit words from bytes. -/
def bytesToWordsBE : List Nat → List Nat
  | b0 :: b1 :: b2 :: b3 :: rest =>
      ((b0 <<< 24) ||| (b1 <<< 16) ||| (b2 <<< 8) ||| b3) :: bytesToWordsBE rest
  | _ => []

def word32ToBytesBE (n : Nat) : List Nat :=
  [n >>> 24 % 256, n >>> 16 % 256, n >>> 8 % 256, n % 256]

def word64ToBytesBE (n : Nat) : List Nat :=
  [n >>> 56 % 256, n >>> 48 % 256, n >>> 40 % 256, n >>> 32 % 256,
   n >>> 24 % 256, n >>> 16 % 256, n >>> 8 % 256, n % 256]

/-- The 64 SHA-256 round constants (FIPS 180-4), in decimal. -/
def sha256K : List Nat :=
  [1116352408, 1899447441, 3049323471, 3921009573, 961987163, 1508970993,
   2453635748, 2870763221, 3624381080, 310598401, 607225278, 1426881987,
   1925078388, 2162078206, 2614888103, 3248222580, 3835390401, 4022224774,
   264347078, 604807628, 770255983, 1249150122, 1555081692, 1996064986,
   2554220882, 2821834349, 2952996808, 3210313671, 3336571891, 3584528711,
   113926993, 338241895, 666307205, 773529912, 1294757372, 1396182291,
   1695183700, 1986661051, 2177026350, 2456956037, 2730485921, 2820302411,
   3259730800, 3345764771, 3516065817, 3600352804, 4094571909, 275423344,
   430227734, 506948616, 659060556, 883997877, 958139571, 1322822218,
   1537002063, 1747873779, 1955562222, 2024104815, 2227730452, 2361852424,
   2428436474, 2756734187, 3204031479, 3329325298]

/-- Extend a 16-word schedule by `fuel` further words. -/
def scheduleFrom (w : List Nat) : Nat → List Nat
  | 0 => w
  | fuel + 1 =>
    let i := w.length
    let x := add32 (add32 (smallSigma1 (w.getD (i - 2) 0)) (w.getD (i - 7) 0))
                   (add32 (smallSigma0 (w.getD (i - 15) 0)) (w.getD (i - 16) 0))
    scheduleFrom (w ++ [x]) fuel

def schedule (block : List Nat) : List Nat := scheduleFrom (bytesToWordsBE block) 48

/-- The eight 32-bit working variables of SHA-256. -/
structure Sha256State where
  a : Nat
  b : Nat
  c : Nat
  d : Nat
  e : Nat
  f : Nat
  g : Nat
  h : Nat
deriving DecidableEq, Repr

/-- One SHA-256 round; `kw` is the round constant plus the schedule word. -/
def sha256Round (st : Sha256State) (kw : Nat) : Sha256State :=
  let t1 := add32 st.h (add32 (bigSigma1 st.e) (add32 (chV st.e st.f st.g) kw))
  let t2 := add32 (bigSigma0 st.a) (majV st.a st.b st.c)
  ⟨add32 t1 t2, st.a, st.b, st.c, add32 st.d t1, st.e, st.f, st.g⟩

def compressBlock (st : Sha256State) (block : List Nat) : Sha256State :=
  let kws := (sha256K.zip (schedule block)).map (fun p => add32 p.1 p.2)
  let fin := kws.foldl sha256Round st
  ⟨add32 st.a fin.a, add32 st.b fin.b, add32 st.c fin.c, add32 st.d fin.d,
   add32 st.e fin.e, add32 st.f fin.f, add32 st.g fin.g, add32 st.h fin.h⟩

/-- Merkle–Damgård padding: `0x80`, zeros to 56 mod 64, 64-bit bit length. -/
def sha256Pad (msg : List Nat) : List Nat :=
  msg ++ 0x80 :: List.replicate ((119 - msg.length % 64) % 64) 0
      ++ word64ToBytesBE (msg.length * 8 % 2 ^ 64)

def chunks64 : List Nat → List (List Nat)
  | [] => []
  | b :: l => ((b :: l).take 64) :: chunks64 ((b :: l).drop 64)
termination_by l => l.length
decreasing_by simp_wf; omega

def sha256InitState : Sha256State :=
  ⟨1779033703, 3144134277, 1013904242, 2773480762,
   1359893119, 2600822924, 528734635, 1541459225⟩

/-- SHA-256 of a byte string, as its 32 digest bytes. -/
def sha256 (msg : List Nat) : List Nat :=
  let fin := (chunks64 (sha256Pad msg)).foldl compressBlock sha256InitState
  word32ToBytesBE fin.a ++ word32ToBytesBE fin.b ++ word32ToBytesBE fin.c ++
  word32ToBytesBE fin.d ++ word32ToBytesBE fin.e ++ word32ToBytesBE fin.f ++
  word32ToBytesBE fin.g ++ word32ToBytesBE fin.h

/-- HMAC-SHA256 (RFC 2104) with a 64-byte block. -/
def hmacSha256 (key msg : List Nat) : List Nat :=
  let key1 := if 64 < key.length then sha256 key else key
  let key0 := key1 ++ List.replicate (64 - key1.length) 0
  sha256 ((key0.map (fun b => b ^^^ 0x5c)) ++
          sha256 ((key0.map (fun b => b ^^^ 0x36)) ++ msg))

def hexDigit (n : Nat) : Nat := if n < 10 then 48 + n else 87 + n

def hexByte (b : Nat) : List Nat := [hexDigit (b / 16 % 16), hexDigit (b % 16)]

/-- `createHmac("sha256", key).update(msg).digest("hex")`: the lowercase
hex string of the HMAC digest, as ASCII codes. -/
def hmacSha256Hex (key msg : List Nat) : List Nat := (hmacSha256 key msg).flatMap hexByte

/-! ### Metadata and the client-key authorization transform -/

/-- A metadata value: `string | number | boolean` from the source.  JS
numbers are embedded at their integral values. -/
inductive MetaValue where
  | vs (s : List Nat)
  | vn (n : Int)
  | vb (b : Bool)
deriving DecidableEq, Repr

/-- `MetadataItem` from the source.  Strings are their UTF-8 bytes. -/
structure MetadataItem where
  key : List Nat
  value : MetaValue
deriving DecidableEq, Repr

def natToDecimalAux (n : Nat) (acc : List Nat) : List Nat :=
  if n = 0 then acc else natToDecimalAux (n / 10) ((48 + n % 10) :: acc)
termination_by n

/-- Decimal ASCII rendering of a natural number (JS `String(n)` for
non-negative integral numbers). -/
def natToDecimal (n : Nat) : List Nat :=
  if n = 0 then [48] else natToDecimalAux n []

/-- JS `String(n)` for integral numbers, including the sign. -/
def intToDecimal (n : Int) : List Nat :=
  if n < 0 then 45 :: natToDecimal (-n).toNat else natToDecimal n.toNat

/-- JS `String(value)` on a metadata value. -/
def jsToString : MetaValue → List Nat
  | .vs s => s
  | .vn n => intToDecimal n
  | .vb true => [116, 114, 117, 101]
  | .vb false => [102, 97, 108, 115, 101]

/-- `key.toLowerCase()` restricted to the ASCII mapping (the only part the
control-key comparisons of the source can exercise on ASCII keys). -/
def toLowerAscii (s : List Nat) : List Nat :=
  s.map (fun c => if 65 ≤ c ∧ c ≤ 90 then c + 32 else c)

/-- ASCII bytes of the string `client-key`. -/
def clientKeyStr : List Nat := [99, 108, 105, 101, 110, 116, 45, 107, 101, 121]

/-- ASCII bytes of the string `authorization`. -/
def authorizationLower : List Nat :=
  [97, 117, 116, 104, 111, 114, 105, 122, 97, 116, 105, 111, 110]

/-- ASCII bytes of the string `Authorization`. -/
def authorizationCap : List Nat :=
  [65, 117, 116, 104, 111, 114, 105, 122, 97, 116, 105, 111, 110]

/-- ASCII bytes of the string `TOTP ` (with the trailing space). -/
def totpStr : List Nat := [84, 79, 84, 80, 32]

/-- `applyClientKeyAuthorization` (source lines 178-194).  `nowMs` is the
`Date.now()` sample in milliseconds, passed explicitly. -/
def applyClientKeyAuthorization (nowMs : Nat) (entries : List MetadataItem) :
    List MetadataItem :=
  match entries.find? (fun e => toLowerAscii e.key == clientKeyStr) with
  | none => entries
  | some clientEntry =>
    let secretKey := jsToString clientEntry.value
    let seconds := nowMs / 1000
    let rounded := seconds - seconds % 30
    let signature := hmacSha256Hex secretKey (natToDecimal rounded)
    let filtered := entries.filter (fun e =>
      (toLowerAscii e.key != clientKeyStr) &&
      (toLowerAscii e.key != authorizationLower))
    filtered ++ [⟨authorizationCap, .vs (totpStr ++ signature)⟩]

/-! ### Status classification -/

/-- The dynamic (`unknown`-typed) status value `statusToString` and
`isServing` receive: a number, a string, or `undefined`. -/
inductive JsStatus where
  | num (n : Int)
  | str (s : List Nat)
  | undefinedValue
deriving DecidableEq, Repr

/-- ASCII bytes of `SERVING`. -/
def servingStr : List Nat := [83, 69, 82, 86, 73, 78, 71]

/-- ASCII bytes of `NOT_SERVING`. -/
def notServingStr : List Nat := [78, 79, 84, 95, 83, 69, 82, 86, 73, 78, 71]

/-- ASCII bytes of `SERVICE_UNKNOWN`. -/
def serviceUnknownStr : List Nat :=
  [83, 69, 82, 86, 73, 67, 69, 95, 85, 78, 75, 78, 79, 87, 78]

/-- ASCII bytes of `UNKNOWN`. -/
def unknownStr : List Nat := [85, 78, 75, 78, 79, 87, 78]

/-- `statusToString` (source lines 208-213). -/
def statusToString (status : JsStatus) : List Nat :=
  if status = .num 1 ∨ status = .str servingStr then servingStr
  else if status = .num 2 ∨ status = .str notServingStr then notServingStr
  else if status = .num 3 ∨ status = .str serviceUnknownStr then serviceUnknownStr
  else unknownStr

/-- `isServing` (source lines 215-217). -/
def isServing (status : JsStatus) : Bool :=
  (status == .str servingStr) || (status == .num 1)

/-- The status of a parse result seen as the dynamic value
`response?.status` (set only by the varint branch, hence a number or
`undefined`). -/
def statusOf (r : ParseResult) : JsStatus :=
  match r.status with
  | some n => .num n
  | none => .undefinedValue

/-! ### Definitions following the specification's words, used to state the
claims and compare against the source's behaviour. -/

/-- Modelled from the spec (§4.1 `VarintCodec.encodeVarint`): base-128
little-endian encoding, continuation bit set on all but the final byte. -/
def encodeVarint (n : Nat) : List Nat :=
  if n < 128 then [n] else (n % 128 + 128) :: encodeVarint (n / 128)
termination_by n
decreasing_by simp_wf; omega

/-- Modelled from the spec (§4.2 `WireFormatEncoder.encodeRequest`): the
format claim C2 requires — one tag byte, the byte length as a (possibly
multi-byte) varint, then the bytes. -/
def encodeRequestSpec (service : List Nat) : List Nat :=
  if service.length = 0 then []
  else 0x0a :: (encodeVarint service.length ++ service)

/-- The spec's `StatusKind` (§3). -/
inductive StatusKind where
  | SERVING
  | NOT_SERVING
  | SERVICE_UNKNOWN
  | UNKNOWN
deriving DecidableEq, Repr

/-- Modelled from the spec (§4.5 Classify): `1 or "SERVING" -> SERVING`,
`2 or "NOT_SERVING" -> NOT_SERVING`, `3 or "SERVICE_UNKNOWN" ->
SERVICE_UNKNOWN`, anything else `UNKNOWN`. -/
def classify (status : JsStatus) : StatusKind :=
  if status = .num 1 ∨ status = .str servingStr then .SERVING
  else if status = .num 2 ∨ status = .str notServingStr then .NOT_SERVING
  else if status = .num 3 ∨ status = .str serviceUnknownStr then .SERVICE_UNKNOWN
  else .UNKNOWN

/-- The string the source's `statusToString` returns for each `StatusKind`. -/
def kindToString : StatusKind → List Nat
  | .SERVING => servingStr
  | .NOT_SERVING => notServingStr
  | .SERVICE_UNKNOWN => serviceUnknownStr
  | .UNKNOWN => unknownStr

/-- Lookup in the generic field mapping (`result["field_" + k]`). -/
def getField (r : ParseResult) (k : Nat) : Option FieldVal :=
  (r.fields.find? (fun p => p.1 == k)).map (fun p => p.2)

/-- The service string recovered from a decoded request: the string under
field 1, or the empty string when the field is absent (the remote convention
the spec names: no bytes means field absent, use the default). -/
def decodeService (r : ParseResult) : List Nat :=
  match getField r 1 with
  | some (.vstr s) => s
  | _ => []

/-- A byte string that is a complete varint: all bytes but the last carry
the continuation bit, the last does not. -/
def IsTermVarint : List Nat → Bool
  | [] => false
  | [b] => b &&& 0x80 == 0
  | b :: c :: rest => (b &&& 0x80 != 0) && IsTermVarint (c :: rest)

/-- Buffers consisting of completely parseable fields: each field is a tag
byte of wire type 0 followed by a complete varint, or a tag byte of wire
type 2 followed by a complete varint that decodes (with the source's 32-bit
semantics) to the exact length of the following payload. -/
inductive CompleteFields : List Nat → Prop where
  | nil : CompleteFields []
  | vint (tag : Nat) (body rest : List Nat) (ht : tag &&& 7 = 0)
      (hb : IsTermVarint body = true) (more : CompleteFields rest) :
      CompleteFields (tag :: (body ++ rest))
  | lenDelim (tag : Nat) (body payload rest : List Nat) (ht : tag &&& 7 = 2)
      (hb : IsTermVarint body = true)
      (hlen : (varintLoop body 0 0 0).1 = (payload.length : Int))
      (more : CompleteFields rest) :
      CompleteFields (tag :: (body ++ (payload ++ rest)))

/-- ASCII code of a lowercase hex digit. -/
def isHexDigitCode (c : Nat) : Bool :=
  (48 ≤ c && c ≤ 57) || (97 ≤ c && c ≤ 102)

/-! ### Arithmetic and indexing lemmas -/

theorem toUInt32n_coe (k : Nat) (h : k < 2 ^ 32) : toUInt32n (k : Int) = k := by
  unfold toUInt32n
  rw [Int.emod_eq_of_lt (by positivity) (by exact_mod_cast h)]
  exact Int.toNat_natCast k

theorem toInt32_coe (k : Nat) (h : k < 2 ^ 31) : toInt32 (k : Int) = (k : Int) := by
  unfold toInt32
  have h32 : (k : Int) < 2 ^ 32 := by exact_mod_cast h.trans (by norm_num)
  rw [Int.emod_eq_of_lt (by positivity) h32, if_pos (by exact_mod_cast h)]

theorem toUInt32n_nonneg (v : Int) (h0 : 0 ≤ v) (h : v < 2 ^ 32) :
    toUInt32n v = v.toNat := by
  unfold toUInt32n
  rw [Int.emod_eq_of_lt h0 h]

theorem jsIndex_nat (buf : List Nat) (k : Nat) : jsIndex buf (k : Int) = buf[k]? := by
  unfold jsIndex
  split
  · rename_i h
    have hk : k < buf.length := by omega
    rw [List.getElem?_eq_getElem hk]
    simp [List.get_eq_getElem]
  · rename_i h
    rw [List.getElem?_eq_none (by omega)]

theorem jsIndex_append (pre suf : List Nat) (k : Nat) :
    jsIndex (pre ++ suf) ((pre.length + k : Nat) : Int) = jsIndex suf (k : Int) := by
  rw [jsIndex_nat, jsIndex_nat, List.getElem?_append_right (by omega)]
  congr 1
  omega

theorem toUInt32n_zero : toUInt32n 0 = 0 := by
  unfold toUInt32n
  simp

theorem jsOr32_accum (v : Int) (b s : Nat) (hv : 0 ≤ v) (hvs : v.toNat < 2 ^ s)
    (hb : b < 128) (hsum : v.toNat + b * 2 ^ s < 2 ^ 31) :
    jsOr32 v (jsShl32 ((b : Nat) : Int) s) = ((v.toNat + b * 2 ^ s : Nat) : Int) := by
  have hv31 : v < 2 ^ 31 := by
    have := Int.toNat_of_nonneg hv
    omega
  have hvN : toUInt32n v = v.toNat := toUInt32n_nonneg v hv (by
    have : (2 : Int) ^ 31 < 2 ^ 32 := by norm_num
    omega)
  rcases Nat.eq_zero_or_pos b with hb0 | hbpos
  · subst hb0
    have hshl : jsShl32 ((0 : Nat) : Int) s = 0 := by
      unfold jsShl32
      rw [toUInt32n_coe 0 (by norm_num), Nat.zero_shiftLeft]
      exact toInt32_coe 0 (by norm_num)
    rw [hshl]
    unfold jsOr32
    rw [hvN, toUInt32n_zero, Nat.or_zero]
    rw [toInt32_coe v.toNat (by omega)]
    have : (v.toNat : Int) = v := Int.toNat_of_nonneg hv
    omega
  · have hs31 : s < 31 := by
      by_contra hcon
      have h1 : 2 ^ 31 ≤ 2 ^ s := Nat.pow_le_pow_right (by norm_num) (by omega)
      have h2 : 2 ^ s ≤ b * 2 ^ s := Nat.le_mul_of_pos_left _ hbpos
      omega
    have hbs : b * 2 ^ s < 2 ^ 31 := by omega
    have hshl : jsShl32 ((b : Nat) : Int) s = ((b * 2 ^ s : Nat) : Int) := by
      unfold jsShl32
      rw [toUInt32n_coe b (by omega), Nat.mod_eq_of_lt (by omega), Nat.shiftLeft_eq]
      exact toInt32_coe (b * 2 ^ s) hbs
    rw [hshl]
    unfold jsOr32
    rw [hvN, toUInt32n_coe (b * 2 ^ s) (by
      have : (2 : Nat) ^ 31 < 2 ^ 32 := by norm_num
      omega)]
    have hor : v.toNat ||| b * 2 ^ s = v.toNat + b * 2 ^ s := by
      have hsw := Nat.mul_add_lt_is_or hvs b
      rw [Nat.lor_comm, Nat.mul_comm] at hsw
      omega
    rw [hor, toInt32_coe _ (by omega)]

theorem varintLoop_stop (buf : List Nat) (offset v : Int) (s : Nat)
    (h : (buf.length : Int) ≤ offset) : varintLoop buf offset v s = (v, offset) := by
  unfold varintLoop
  rw [show (((buf.length : Int) - offset).toNat) = 0 by omega]
  rfl

theorem varintLoop_step (buf : List Nat) (offset v : Int) (s : Nat) (b : Nat)
    (hlt : offset < (buf.length : Int)) (hidx : jsIndex buf offset = some b) :
    varintLoop buf offset v s =
      if b &&& 0x80 = 0 then
        (jsOr32 v (jsShl32 ((b &&& 0x7f : Nat) : Int) s), offset + 1)
      else
        varintLoop buf (offset + 1) (jsOr32 v (jsShl32 ((b &&& 0x7f : Nat) : Int) s))
          (s + 7) := by
  unfold varintLoop
  rw [show (((buf.length : Int) - offset).toNat) =
      (((buf.length : Int) - (offset + 1)).toNat) + 1 by omega]
  simp only [varintAux, if_pos hlt, hidx]

theorem varintLoop_append (body : List Nat) (hb : IsTermVarint body = true) :
    ∀ (pre rest : List Nat) (v : Int) (s : Nat),
      varintLoop (pre ++ (body ++ rest)) (pre.length : Int) v s =
        ((varintLoop body 0 v s).1, ((pre.length + body.length : Nat) : Int)) := by
  induction body with
  | nil => exact absurd hb (by simp [IsTermVarint])
  | cons b tail ih =>
    intro pre rest v s
    have hlen : ((pre.length : Nat) : Int) <
        (((pre ++ ((b :: tail) ++ rest)).length : Nat) : Int) := by
      simp only [List.length_append, List.length_cons]
      push_cast
      omega
    have hidx : jsIndex (pre ++ ((b :: tail) ++ rest)) ((pre.length : Nat) : Int) =
        some b := by
      rw [jsIndex_nat, List.getElem?_append_right (by omega)]
      simp
    have hidx0 : jsIndex (b :: tail) (0 : Int) = some b := by
      simpa using jsIndex_nat (b :: tail) 0
    have hlt0 : (0 : Int) < (((b :: tail).length : Nat) : Int) := by
      simp only [List.length_cons]
      push_cast
      omega
    rw [varintLoop_step _ _ v s b hlen hidx, varintLoop_step _ _ v s b hlt0 hidx0]
    cases tail with
    | nil =>
      have hterm : b &&& 0x80 = 0 := by simpa [IsTermVarint] using hb
      rw [if_pos hterm, if_pos hterm]
      simp only [Prod.mk.injEq]
      refine ⟨by trivial, ?_⟩
      simp only [List.length_cons, List.length_nil]
      push_cast
      ring
    | cons c tail2 =>
      have hcont : (b &&& 0x80 != 0) = true ∧ IsTermVarint (c :: tail2) = true := by
        simpa [IsTermVarint, Bool.and_eq_true] using hb
      have hbne : ¬b &&& 0x80 = 0 := by
        have := hcont.1
        simpa using this
      rw [if_neg hbne, if_neg hbne]
      have h1 : varintLoop (pre ++ ((b :: c :: tail2) ++ rest))
          (((pre.length : Nat) : Int) + 1)
          (jsOr32 v (jsShl32 ((b &&& 0x7f : Nat) : Int) s)) (s + 7) =
          varintLoop ((pre ++ [b]) ++ ((c :: tail2) ++ rest))
            ((((pre ++ [b]).length : Nat) : Int))
            (jsOr32 v (jsShl32 ((b &&& 0x7f : Nat) : Int) s)) (s + 7) := by
      -- same buffer, same offset, after reassociation
        have e1 : pre ++ ((b :: c :: tail2) ++ rest) =
            (pre ++ [b]) ++ ((c :: tail2) ++ rest) := by simp
        have e2 : (((pre.length : Nat) : Int) + 1) =
            ((((pre ++ [b]).length : Nat) : Int)) := by
          simp only [List.length_append, List.length_singleton]
          push_cast
          ring
        rw [e1, e2]
      have h2 : varintLoop (b :: c :: tail2) ((0 : Int) + 1)
          (jsOr32 v (jsShl32 ((b &&& 0x7f : Nat) : Int) s)) (s + 7) =
          varintLoop ([b] ++ ((c :: tail2) ++ []))
            (((([b] : List Nat).length : Nat) : Int))
            (jsOr32 v (jsShl32 ((b &&& 0x7f : Nat) : Int) s)) (s + 7) := by
        have e1 : (b :: c :: tail2) = [b] ++ ((c :: tail2) ++ []) := by simp
        have e2 : ((0 : Int) + 1) = ((([b] : List Nat).length : Nat) : Int) := by
          simp
        rw [e1, e2]
      rw [h1, h2, ih hcont.2 (pre ++ [b]) rest,
          ih hcont.2 [b] []]
      simp only [Prod.mk.injEq]
      refine ⟨by trivial, ?_⟩
      simp only [List.length_append, List.length_cons, List.length_singleton,
        List.length_nil]
      push_cast
      ring

theorem varintLoop_none (buf : List Nat) (offset v : Int) (s : Nat)
    (hlt : offset < (buf.length : Int)) (hidx : jsIndex buf offset = none) :
    varintLoop buf offset v s = (v, offset) := by
  unfold varintLoop
  rw [show (((buf.length : Int) - offset).toNat) =
      (((buf.length : Int) - (offset + 1)).toNat) + 1 by omega]
  simp only [varintAux, if_pos hlt, hidx]

theorem ball_and127 : ∀ m, m < 128 → m &&& 127 = m := by decide

theorem ball_and128 : ∀ m, m < 128 → m &&& 128 = 0 := by decide

theorem ball_cont127 : ∀ m, m < 128 → (m + 128) &&& 127 = m := by decide

theorem ball_cont128 : ∀ m, m < 128 → (m + 128) &&& 128 ≠ 0 := by decide

theorem encodeVarint_small {n : Nat} (hn : n < 128) : encodeVarint n = [n] := by
  rw [encodeVarint]
  simp [hn]

theorem encodeVarint_large {n : Nat} (hn : ¬n < 128) :
    encodeVarint n = (n % 128 + 128) :: encodeVarint (n / 128) := by
  rw [encodeVarint]
  simp [hn]

theorem varintLoop_encode (n : Nat) :
    ∀ (pre rest : List Nat) (v : Int) (s : Nat),
      0 ≤ v → v.toNat < 2 ^ s → v.toNat + n * 2 ^ s < 2 ^ 31 →
      varintLoop (pre ++ (encodeVarint n ++ rest)) (pre.length : Int) v s =
        (((v.toNat + n * 2 ^ s : Nat) : Int),
         ((pre.length + (encodeVarint n).length : Nat) : Int)) := by
  induction n using Nat.strong_induction_on with
  | _ n ih =>
    intro pre rest v s hv hvs hsum
    by_cases hn : n < 128
    · rw [encodeVarint_small hn]
      have hlen : ((pre.length : Nat) : Int) <
          (((pre ++ ([n] ++ rest)).length : Nat) : Int) := by
        simp only [List.length_append, List.length_cons, List.length_nil]
        push_cast
        omega
      have hidx : jsIndex (pre ++ ([n] ++ rest)) ((pre.length : Nat) : Int) =
          some n := by
        rw [jsIndex_nat, List.getElem?_append_right (by omega)]
        simp
      rw [varintLoop_step _ _ v s n hlen hidx, ball_and127 n hn,
          if_pos (ball_and128 n hn), jsOr32_accum v n s hv hvs hn hsum]
      simp only [Prod.mk.injEq]
      refine ⟨by trivial, ?_⟩
      simp only [List.length_cons, List.length_nil]
      push_cast
      ring
    · rw [encodeVarint_large hn]
      have hmod : n % 128 < 128 := Nat.mod_lt _ (by norm_num)
      have hmodsum : v.toNat + (n % 128) * 2 ^ s < 2 ^ 31 := by
        have h1 : (n % 128) * 2 ^ s ≤ n * 2 ^ s :=
          Nat.mul_le_mul_right _ (Nat.mod_le _ _)
        omega
      have hlen : ((pre.length : Nat) : Int) <
          (((pre ++ (((n % 128 + 128) :: encodeVarint (n / 128)) ++ rest)).length :
            Nat) : Int) := by
        simp only [List.length_append, List.length_cons]
        push_cast
        omega
      have hidx : jsIndex (pre ++ (((n % 128 + 128) :: encodeVarint (n / 128)) ++
          rest)) ((pre.length : Nat) : Int) = some (n % 128 + 128) := by
        rw [jsIndex_nat, List.getElem?_append_right (by omega)]
        simp
      rw [varintLoop_step _ _ v s (n % 128 + 128) hlen hidx,
          ball_cont127 (n % 128) hmod, if_neg (ball_cont128 (n % 128) hmod),
          jsOr32_accum v (n % 128) s hv hvs hmod hmodsum]
      have hstep : 2 ^ (s + 7) = 2 ^ s * 128 := by
        rw [pow_add]
        norm_num
      have hcollect : (n % 128) * 2 ^ s + (n / 128) * 2 ^ (s + 7) = n * 2 ^ s := by
        rw [hstep]
        calc (n % 128) * 2 ^ s + (n / 128) * (2 ^ s * 128)
            = (n % 128 + 128 * (n / 128)) * 2 ^ s := by ring
          _ = n * 2 ^ s := by rw [Nat.mod_add_div]
      have hv' : (0 : Int) ≤ ((v.toNat + (n % 128) * 2 ^ s : Nat) : Int) := by
        positivity
      have hvs' : ((v.toNat + (n % 128) * 2 ^ s : Nat) : Int).toNat < 2 ^ (s + 7) := by
        rw [Int.toNat_natCast, hstep]
        have : (n % 128) * 2 ^ s ≤ 127 * 2 ^ s :=
          Nat.mul_le_mul_right _ (by omega)
        nlinarith [pow_pos (by norm_num : (0:Nat) < 2) s]
      have hsum' : ((v.toNat + (n % 128) * 2 ^ s : Nat) : Int).toNat +
          (n / 128) * 2 ^ (s + 7) < 2 ^ 31 := by
        rw [Int.toNat_natCast]
        omega
      have hre : pre ++ (((n % 128 + 128) :: encodeVarint (n / 128)) ++ rest) =
          (pre ++ [n % 128 + 128]) ++ (encodeVarint (n / 128) ++ rest) := by
        simp
      have hoff : ((pre.length : Nat) : Int) + 1 =
          (((pre ++ [n % 128 + 128]).length : Nat) : Int) := by
        simp only [List.length_append, List.length_singleton]
        push_cast
        ring
      rw [hre, hoff, ih (n / 128) (Nat.div_lt_self (by omega) (by norm_num))
        (pre ++ [n % 128 + 128]) rest _ (s + 7) hv' hvs' hsum']
      simp only [Prod.mk.injEq, Int.toNat_natCast]
      constructor
      · congr 1
        omega
      · simp only [List.length_append, List.length_cons, List.length_singleton,
          List.length_nil]
        push_cast
        ring

theorem varintAux_le (buf : List Nat) :
    ∀ (fuel : Nat) (offset v : Int) (s : Nat),
      offset ≤ (buf.length : Int) →
      (varintAux buf fuel offset v s).2 ≤ (buf.length : Int) := by
  intro fuel
  induction fuel with
  | zero =>
    intro offset v s hle
    exact hle
  | succ k ih =>
    intro offset v s hle
    by_cases hlt : offset < (buf.length : Int)
    · cases hidx : jsIndex buf offset with
      | none =>
        simp only [varintAux, if_pos hlt, hidx]
        exact hle
      | some b =>
        simp only [varintAux, if_pos hlt, hidx]
        split
        · exact (by omega : offset + 1 ≤ (buf.length : Int))
        · exact ih (offset + 1) _ _ (by omega)
    · simp only [varintAux, if_neg hlt]
      exact hle

theorem varintLoop_no_overrun (buf : List Nat) (offset v : Int) (s : Nat) :
    offset ≤ (buf.length : Int) →
    (varintLoop buf offset v s).2 ≤ (buf.length : Int) := by
  intro hle
  exact varintAux_le buf _ offset v s hle

/-! ### Parse loop lemmas -/

theorem parseLoop_exit (buf : List Nat) (fuel : Nat) (offset : Int)
    (r : ParseResult) (h : (buf.length : Int) ≤ offset) :
    parseLoop buf fuel offset r = some r := by
  rw [parseLoop.eq_def]
  simp only [if_neg (by omega : ¬offset < (buf.length : Int))]

theorem parseLoop_step_vint (buf : List Nat) (fuel : Nat) (offset : Int)
    (r : ParseResult) (tag : Nat) (hlt : offset < (buf.length : Int))
    (hidx : jsIndex buf offset = some tag) (ht : tag &&& 7 = 0) :
    parseLoop buf (fuel + 1) offset r =
      parseLoop buf fuel (varintLoop buf (offset + 1) 0 0).2
        (applyVarintField r (tag >>> 3) (varintLoop buf (offset + 1) 0 0).1) := by
  rw [parseLoop.eq_def]
  simp only [if_pos hlt, hidx, ht]
  simp

theorem parseLoop_step_len (buf : List Nat) (fuel : Nat) (offset : Int)
    (r : ParseResult) (tag : Nat) (hlt : offset < (buf.length : Int))
    (hidx : jsIndex buf offset = some tag) (ht : tag &&& 7 = 2) :
    parseLoop buf (fuel + 1) offset r =
      parseLoop buf fuel
        ((varintLoop buf (offset + 1) 0 0).2 + (varintLoop buf (offset + 1) 0 0).1)
        (applyLenField r (tag >>> 3)
          (utf8Clean (jsSubarray buf (varintLoop buf (offset + 1) 0 0).2
            ((varintLoop buf (offset + 1) 0 0).2 +
             (varintLoop buf (offset + 1) 0 0).1)))) := by
  rw [parseLoop.eq_def]
  simp only [if_pos hlt, hidx, ht]
  simp

theorem parseLoop_step_other (buf : List Nat) (fuel : Nat) (offset : Int)
    (r : ParseResult) (tag : Nat) (hlt : offset < (buf.length : Int))
    (hidx : jsIndex buf offset = some tag) (ht0 : ¬tag &&& 7 = 0)
    (ht2 : ¬tag &&& 7 = 2) :
    parseLoop buf (fuel + 1) offset r =
      some { r with warnings := r.warnings ++ [(tag &&& 7, offset)] } := by
  rw [parseLoop.eq_def]
  simp only [if_pos hlt, hidx, ht0, ht2]
  simp

theorem jsSubarray_extract (x y z : List Nat) :
    jsSubarray (x ++ (y ++ z)) ((x.length : Nat) : Int)
      (((x.length : Nat) : Int) + ((y.length : Nat) : Int)) = y := by
  unfold jsSubarray
  dsimp only
  have hlen : ((x ++ (y ++ z)).length : Int) =
      ((x.length : Int) + (y.length : Int)) + (z.length : Int) := by
    simp [List.length_append]
    ring
  rw [if_neg (by omega : ¬((x.length : Nat) : Int) < 0),
      if_neg (by omega : ¬((x.length : Nat) : Int) + ((y.length : Nat) : Int) < 0)]
  rw [min_eq_left (by omega), min_eq_left (by omega)]
  have h1 : (((x.length : Nat) : Int) + ((y.length : Nat) : Int)).toNat =
      x.length + y.length := by omega
  have h2 : (((x.length : Nat) : Int)).toNat = x.length := by omega
  rw [h1, h2, List.take_append, List.take_left, List.drop_left]

theorem parseLoop_complete (a : List Nat) (ha : CompleteFields a) :
    ∀ (r : ParseResult), ∃ (F : Nat) (r' : ParseResult),
      ∀ (pre rest : List Nat) (fuel : Nat),
        parseLoop (pre ++ (a ++ rest)) (F + fuel) ((pre.length : Nat) : Int) r =
          parseLoop (pre ++ (a ++ rest)) fuel
            ((pre.length + a.length : Nat) : Int) r' := by
  induction ha with
  | nil =>
    intro r
    refine ⟨0, r, fun pre rest fuel => ?_⟩
    simp
  | vint tag body rest' ht hb more ih =>
    intro r
    obtain ⟨F, r', hF⟩ := ih (applyVarintField r (tag >>> 3) (varintLoop body 0 0 0).1)
    refine ⟨F + 1, r', fun pre rest fuel => ?_⟩
    have hlt : ((pre.length : Nat) : Int) <
        (((pre ++ ((tag :: (body ++ rest')) ++ rest)).length : Nat) : Int) := by
      simp only [List.length_append, List.length_cons]
      push_cast
      omega
    have hidx : jsIndex (pre ++ ((tag :: (body ++ rest')) ++ rest))
        ((pre.length : Nat) : Int) = some tag := by
      rw [jsIndex_nat, List.getElem?_append_right (le_refl _)]
      simp
    have hfuel : F + 1 + fuel = (F + fuel) + 1 := by ring
    rw [hfuel, parseLoop_step_vint _ (F + fuel) _ r tag hlt hidx ht]
    have hB : pre ++ ((tag :: (body ++ rest')) ++ rest) =
        (pre ++ [tag]) ++ (body ++ (rest' ++ rest)) := by simp
    have hoff : ((pre.length : Nat) : Int) + 1 =
        (((pre ++ [tag]).length : Nat) : Int) := by
      simp only [List.length_append, List.length_singleton]
      push_cast
      ring
    have hv : varintLoop (pre ++ ((tag :: (body ++ rest')) ++ rest))
        (((pre.length : Nat) : Int) + 1) 0 0 =
        ((varintLoop body 0 0 0).1, ((pre.length + 1 + body.length : Nat) : Int)) := by
      rw [hB, hoff, varintLoop_append body hb (pre ++ [tag]) (rest' ++ rest) 0 0]
      simp only [Prod.mk.injEq, List.length_append, List.length_singleton]
    rw [hv]
    have h2 := hF (pre ++ (tag :: body)) rest fuel
    have e1 : (pre ++ (tag :: body)) ++ (rest' ++ rest) =
        pre ++ ((tag :: (body ++ rest')) ++ rest) := by simp
    have e2 : (((pre ++ (tag :: body)).length : Nat) : Int) =
        ((pre.length + 1 + body.length : Nat) : Int) := by
      simp only [List.length_append, List.length_cons]
      push_cast
      ring
    have e3 : (((pre ++ (tag :: body)).length + rest'.length : Nat) : Int) =
        ((pre.length + (tag :: (body ++ rest')).length : Nat) : Int) := by
      simp only [List.length_append, List.length_cons]
      push_cast
      ring
    rw [e1, e2, e3] at h2
    exact h2
  | lenDelim tag body payload rest' ht hb hlen more ih =>
    intro r
    obtain ⟨F, r', hF⟩ := ih (applyLenField r (tag >>> 3) (utf8Clean payload))
    refine ⟨F + 1, r', fun pre rest fuel => ?_⟩
    have hlt : ((pre.length : Nat) : Int) <
        (((pre ++ ((tag :: (body ++ (payload ++ rest'))) ++ rest)).length : Nat) :
          Int) := by
      simp only [List.length_append, List.length_cons]
      push_cast
      omega
    have hidx : jsIndex (pre ++ ((tag :: (body ++ (payload ++ rest'))) ++ rest))
        ((pre.length : Nat) : Int) = some tag := by
      rw [jsIndex_nat, List.getElem?_append_right (le_refl _)]
      simp
    have hfuel : F + 1 + fuel = (F + fuel) + 1 := by ring
    rw [hfuel, parseLoop_step_len _ (F + fuel) _ r tag hlt hidx ht]
    have hB : pre ++ ((tag :: (body ++ (payload ++ rest'))) ++ rest) =
        (pre ++ [tag]) ++ (body ++ (payload ++ (rest' ++ rest))) := by simp
    have hoff : ((pre.length : Nat) : Int) + 1 =
        (((pre ++ [tag]).length : Nat) : Int) := by
      simp only [List.length_append, List.length_singleton]
      push_cast
      ring
    have hv : varintLoop (pre ++ ((tag :: (body ++ (payload ++ rest'))) ++ rest))
        (((pre.length : Nat) : Int) + 1) 0 0 =
        (((payload.length : Nat) : Int),
         ((pre.length + 1 + body.length : Nat) : Int)) := by
      rw [hB, hoff, varintLoop_append body hb (pre ++ [tag]) (payload ++ (rest' ++ rest)) 0 0]
      simp only [Prod.mk.injEq, List.length_append, List.length_singleton]
      exact ⟨hlen, trivial⟩
    rw [hv]
    have hx : pre ++ ((tag :: (body ++ (payload ++ rest'))) ++ rest) =
        (pre ++ (tag :: body)) ++ (payload ++ (rest' ++ rest)) := by simp
    have e2 : ((pre.length + 1 + body.length : Nat) : Int) =
        (((pre ++ (tag :: body)).length : Nat) : Int) := by
      simp only [List.length_append, List.length_cons]
      push_cast
      ring
    have hsub : jsSubarray (pre ++ ((tag :: (body ++ (payload ++ rest'))) ++ rest))
        ((pre.length + 1 + body.length : Nat) : Int)
        (((pre.length + 1 + body.length : Nat) : Int) + ((payload.length : Nat) : Int)) =
        payload := by
      rw [hx, e2]
      exact jsSubarray_extract (pre ++ (tag :: body)) payload (rest' ++ rest)
    rw [hsub]
    have hoff2 : ((pre.length + 1 + body.length : Nat) : Int) +
        ((payload.length : Nat) : Int) =
        ((pre.length + 1 + body.length + payload.length : Nat) : Int) := by
      push_cast
      ring
    rw [hoff2]
    have h2 := hF (pre ++ (tag :: (body ++ payload))) rest fuel
    have e1 : (pre ++ (tag :: (body ++ payload))) ++ (rest' ++ rest) =
        pre ++ ((tag :: (body ++ (payload ++ rest'))) ++ rest) := by simp
    have e4 : (((pre ++ (tag :: (body ++ payload))).length : Nat) : Int) =
        ((pre.length + 1 + body.length + payload.length : Nat) : Int) := by
      simp only [List.length_append, List.length_cons]
      push_cast
      ring
    have e5 : (((pre ++ (tag :: (body ++ payload))).length + rest'.length : Nat) : Int) =
        ((pre.length + (tag :: (body ++ (payload ++ rest'))).length : Nat) : Int) := by
      simp only [List.length_append, List.length_cons]
      push_cast
      ring
    rw [e1, e4, e5] at h2
    exact h2

theorem parseLoop_complete_run (a : List Nat) (ha : CompleteFields a)
    (r : ParseResult) :
    ∃ (F : Nat) (r' : ParseResult), parseLoop a F 0 r = some r' ∧
      ∀ (b : List Nat) (fuel : Nat),
        parseLoop (a ++ b) (F + fuel) 0 r =
          parseLoop (a ++ b) fuel ((a.length : Nat) : Int) r' := by
  obtain ⟨F, r', hF⟩ := parseLoop_complete a ha r
  refine ⟨F, r', ?_, ?_⟩
  · have h := hF [] [] 0
    simp only [List.nil_append, List.append_nil, Nat.add_zero, List.length_nil,
      Nat.zero_add, Nat.cast_zero] at h
    rw [h]
    exact parseLoop_exit a 0 ((a.length : Nat) : Int) r' (le_refl _)
  · intro b fuel
    have h := hF [] b fuel
    simpa using h

theorem length_flatMap_hexByte (l : List Nat) :
    (l.flatMap hexByte).length = 2 * l.length := by
  induction l with
  | nil => rfl
  | cons b t ih =>
    simp only [List.flatMap_cons, List.length_append, ih, hexByte,
      List.length_cons, List.length_nil]
    ring

theorem sha256_length (msg : List Nat) : (sha256 msg).length = 32 := by
  unfold sha256
  simp [word32ToBytesBE]

theorem hmacSha256_length (key msg : List Nat) :
    (hmacSha256 key msg).length = 32 :=
  sha256_length _

theorem ball_hexDigit : ∀ x, x < 16 → isHexDigitCode (hexDigit x) = true := by
  decide

theorem hmacSha256Hex_length (key msg : List Nat) :
    (hmacSha256Hex key msg).length = 64 := by
  unfold hmacSha256Hex
  rw [length_flatMap_hexByte, hmacSha256_length]

theorem hmacSha256Hex_isHex (key msg : List Nat) :
    ∀ c ∈ hmacSha256Hex key msg, isHexDigitCode c = true := by
  intro c hc
  unfold hmacSha256Hex at hc
  rw [List.mem_flatMap] at hc
  obtain ⟨b, _, hcb⟩ := hc
  simp only [hexByte, List.mem_cons, List.not_mem_nil, or_false] at hcb
  rcases hcb with h | h
  · subst h
    exact ball_hexDigit _ (Nat.mod_lt _ (by norm_num))
  · subst h
    exact ball_hexDigit _ (Nat.mod_lt _ (by norm_num))

/-! ### Claim theorems -/

/-- C3: for every buffer, starting offset within bounds (and any
accumulator), the varint loop of the decoder never moves its cursor past the
end of the buffer: if the buffer ends before a byte with the high bit clear
is found, the loop stops at the buffer end instead of indexing out of
bounds. -/
theorem claim_C3_varint_never_overruns (buf : List Nat) (offset v : Int)
    (s : Nat) (h : offset ≤ (buf.length : Int)) :
    (varintLoop buf offset v s).2 ≤ (buf.length : Int) :=
  varintLoop_no_overrun buf offset v s h

/-- Witness for C3 at the truncated varint `[0x80, 0x80]` (all bytes carry
the continuation bit). -/
theorem claim_C3_witness :
    (0 : Int) ≤ ((([0x80, 0x80] : List Nat).length : Nat) : Int) ∧
    (varintLoop [0x80, 0x80] 0 0 0).2 ≤
      ((([0x80, 0x80] : List Nat).length : Nat) : Int) :=
  ⟨by decide, claim_C3_varint_never_overruns [0x80, 0x80] 0 0 0 (by decide)⟩

/-- C4 (amended): the 32-bit accumulator of the decoder decodes the
canonical varint encoding of `n` correctly exactly for `n < 2^31`; the
claim's range `n < 2^64` (and in particular `2^32 - 1`) fails, see the
counterexample. -/
theorem claim_C4_varint_decode (n : Nat) (hn : n < 2 ^ 31) :
    varintLoop (encodeVarint n) 0 0 0 =
      ((n : Int), ((encodeVarint n).length : Int)) := by
  have h := varintLoop_encode n [] [] 0 0 (le_refl 0) (by norm_num)
    (by simpa using hn)
  simpa using h

/-- Witness for C4 at the largest correctly decoded value `2^31 - 1`. -/
theorem claim_C4_witness :
    (2147483647 : Nat) < 2 ^ 31 ∧
    varintLoop (encodeVarint 2147483647) 0 0 0 =
      (((2147483647 : Nat) : Int), ((encodeVarint 2147483647).length : Int)) :=
  ⟨by norm_num, claim_C4_varint_decode 2147483647 (by norm_num)⟩

/-- Counterexample for C4: the well-formed varint encoding of `2^32 - 1`
decodes to the JS 32-bit value `-1`, not to `4294967295`. -/
theorem claim_C4_cex :
    encodeVarint 4294967295 = [255, 255, 255, 255, 15] ∧
    (varintLoop [255, 255, 255, 255, 15] 0 0 0).1 = -1 ∧
    (-1 : Int) ≠ ((4294967295 : Nat) : Int) := by
  refine ⟨?_, by decide, by decide⟩
  rw [encodeVarint]
  norm_num
  rw [encodeVarint]
  norm_num
  rw [encodeVarint]
  norm_num
  rw [encodeVarint]
  norm_num
  rw [encodeVarint]
  norm_num

/-- C2 (amended): `requestSerialize` returns an empty buffer for the empty
service; for non-empty services of UTF-8 length at most 127 bytes it emits
the tag `0x0a`, the length as a (single-byte) varint, then the bytes.  The
claim's multi-byte-varint fallback for lengths above 127 does not hold (the
header hardcodes one length byte, truncated mod 256), see the
counterexample. -/
theorem claim_C2_encode :
    requestSerialize [] = [] ∧
    ∀ s : List Nat, s ≠ [] → s.length ≤ 127 →
      requestSerialize s = 0x0a :: (encodeVarint s.length ++ s) := by
  constructor
  · rfl
  · intro s hne hlen
    have hlen0 : s.length ≠ 0 := by
      simpa [List.length_eq_zero] using hne
    unfold requestSerialize
    rw [if_neg hlen0, encodeVarint_small (by omega), Nat.mod_eq_of_lt (by omega)]
    rfl

/-- Witness for C2 at the service string `OK` (`[0x4f, 0x4b]`), which also
matches the spec's example buffer `[0x0a, 0x02, 0x4f, 0x4b]`. -/
theorem claim_C2_witness :
    ([0x4f, 0x4b] : List Nat) ≠ [] ∧ ([0x4f, 0x4b] : List Nat).length ≤ 127 ∧
    requestSerialize [0x4f, 0x4b] =
      0x0a :: (encodeVarint ([0x4f, 0x4b] : List Nat).length ++ [0x4f, 0x4b]) ∧
    requestSerialize [0x4f, 0x4b] = [0x0a, 0x02, 0x4f, 0x4b] :=
  ⟨by decide, by decide, claim_C2_encode.2 [0x4f, 0x4b] (by decide) (by decide),
   by decide⟩

/-- Counterexample for C2: for a 128-byte service name the encoder does not
produce the tag/varint-length/bytes format the claim requires (the formats
even have different lengths: 130 against 131 bytes). -/
theorem claim_C2_cex :
    requestSerialize (List.replicate 128 97) ≠
      encodeRequestSpec (List.replicate 128 97) := by
  have e : encodeVarint 128 = [128, 1] := by
    rw [encodeVarint]
    norm_num
    rw [encodeVarint]
    norm_num
  intro h
  have hlen := congrArg List.length h
  rw [requestSerialize, encodeRequestSpec] at hlen
  simp [List.length_replicate, e] at hlen

/-- C5 (amended): decoding never raises and the empty buffer decodes to the
empty result with `status` absent; decoding a buffer made of completely
parseable fields `a` followed by any tail `b` first computes exactly the
result of decoding `a` and then continues at the boundary offset — so every
field of `a` is processed identically.  The claim's further assertion that a
truncated trailing field leaves no entry is false: a field truncated
mid-varint is recorded with its partially accumulated value (see the
counterexample). -/
theorem claim_C5_truncation :
    (∀ fuel : Nat, parseProtobufResponse fuel [] = some emptyResult) ∧
    ∀ (a b : List Nat), CompleteFields a → ∀ (r : ParseResult),
      ∃ (F : Nat) (r' : ParseResult), parseLoop a F 0 r = some r' ∧
        ∀ fuel : Nat, parseLoop (a ++ b) (F + fuel) 0 r =
          parseLoop (a ++ b) fuel ((a.length : Nat) : Int) r' := by
  constructor
  · intro fuel
    unfold parseProtobufResponse
    exact parseLoop_exit [] fuel 0 emptyResult (by simp)
  · intro a b ha r
    obtain ⟨F, r', h1, h2⟩ := parseLoop_complete_run a ha r
    exact ⟨F, r', h1, fun fuel => h2 b fuel⟩

/-- Witness for C5: the complete field `[0x08, 0x01]` followed by the
truncated tail `[0x08]`. -/
theorem claim_C5_witness :
    CompleteFields [0x08, 0x01] ∧
    ∃ (F : Nat) (r' : ParseResult),
      parseLoop [0x08, 0x01] F 0 emptyResult = some r' ∧
      ∀ fuel : Nat,
        parseLoop ([0x08, 0x01] ++ [0x08]) (F + fuel) 0 emptyResult =
          parseLoop ([0x08, 0x01] ++ [0x08]) fuel
            ((([0x08, 0x01] : List Nat).length : Nat) : Int) r' := by
  have hc : CompleteFields [0x08, 0x01] :=
    CompleteFields.vint 8 [1] [] (by decide) (by decide) CompleteFields.nil
  exact ⟨hc, claim_C5_truncation.2 [0x08, 0x01] [0x08] hc emptyResult⟩

/-- Counterexample for C5: the buffer `[0x08]` is truncated mid-varint (a
tag with no value byte), yet the decoder records `field_1 = 0` and
`status = 0` instead of returning a result with no fields. -/
theorem claim_C5_cex :
    parseProtobufResponse 1 [0x08] =
      some ⟨[(1, FieldVal.vint 0)], some 0, none, none, none, []⟩ ∧
    ([(1, FieldVal.vint 0)] : List (Nat × FieldVal)) ≠ [] := by
  decide

/-- C6: a tag whose wire type is neither 0 nor 2, after any complete fields
`a`, makes the decoder log the wire type at the tag's offset and stop: the
result is exactly the result of decoding `a` with the warning appended, all
fields of `a` remain, and no byte after the offending tag is interpreted
(the tail `rest` is arbitrary and unread). -/
theorem claim_C6_unknown_wiretype (a : List Nat) (ha : CompleteFields a)
    (t : Nat) (ht0 : ¬t &&& 7 = 0) (ht2 : ¬t &&& 7 = 2) (rest : List Nat) :
    ∃ (F : Nat) (r' : ParseResult), parseLoop a F 0 emptyResult = some r' ∧
      parseLoop (a ++ t :: rest) (F + 1) 0 emptyResult =
        some { r' with warnings :=
          r'.warnings ++ [(t &&& 7, ((a.length : Nat) : Int))] } := by
  obtain ⟨F, r', h1, h2⟩ := parseLoop_complete_run a ha emptyResult
  refine ⟨F, r', h1, ?_⟩
  rw [h2 (t :: rest) 1]
  have hlt : ((a.length : Nat) : Int) < (((a ++ t :: rest).length : Nat) : Int) := by
    simp only [List.length_append, List.length_cons]
    push_cast
    omega
  have hidx : jsIndex (a ++ t :: rest) ((a.length : Nat) : Int) = some t := by
    rw [jsIndex_nat, List.getElem?_append_right (le_refl _)]
    simp
  exact parseLoop_step_other (a ++ t :: rest) 0 ((a.length : Nat) : Int) r' t
    hlt hidx ht0 ht2

/-- Witness for C6: the field `[0x08, 0x01]` followed by the tag `0x0f`
(wire type 7) and two further bytes that must not be interpreted. -/
theorem claim_C6_witness :
    CompleteFields [0x08, 0x01] ∧ ¬(0x0f &&& 7 = 0) ∧ ¬(0x0f &&& 7 = 2) ∧
    ∃ (F : Nat) (r' : ParseResult),
      parseLoop [0x08, 0x01] F 0 emptyResult = some r' ∧
      parseLoop ([0x08, 0x01] ++ 0x0f :: [0x08, 0x02]) (F + 1) 0 emptyResult =
        some { r' with warnings := r'.warnings ++
          [(0x0f &&& 7, ((([0x08, 0x01] : List Nat).length : Nat) : Int))] } := by
  have hc : CompleteFields [0x08, 0x01] :=
    CompleteFields.vint 8 [1] [] (by decide) (by decide) CompleteFields.nil
  exact ⟨hc, by decide, by decide,
    claim_C6_unknown_wiretype [0x08, 0x01] hc 0x0f (by decide) (by decide)
      [0x08, 0x02]⟩

/-- C7: `Buffer#toString("utf8")` never throws in Node/Bun, so for the
invalid UTF-8 payload `[0xff]` the decoder records the lossy
replacement-character string (U+FFFD, bytes `EF BF BD`) under field 1 — the
source's `catch` branch that would record the raw bytes is unreachable,
contradicting the claim. -/
theorem claim_C7_invalid_utf8 :
    parseProtobufResponse 1 [0x0a, 0x01, 0xFF] =
      some ⟨[(1, FieldVal.vstr repl)], none, none, none, none, []⟩ ∧
    FieldVal.vstr repl ≠ FieldVal.vbytes [0xFF] := by
  decide

/-- C10: the decode loop does not terminate on every input.  On the 6-byte
buffer `0a fa ff ff ff 0f` the length varint decodes (in 32-bit JS
arithmetic) to `-6`, `offset += length` moves the cursor back to 0, and the
loop re-reads the same field forever: for every iteration bound the loop is
still running. -/
theorem claim_C10_nontermination :
    ∀ (fuel : Nat) (r : ParseResult),
      parseLoop [0x0a, 0xFA, 0xFF, 0xFF, 0xFF, 0x0F] fuel 0 r = none := by
  intro fuel
  induction fuel with
  | zero =>
    intro r
    rfl
  | succ k ih =>
    intro r
    have hlt : (0 : Int) <
        ((([0x0a, 0xFA, 0xFF, 0xFF, 0xFF, 0x0F] : List Nat).length : Nat) : Int) := by
      decide
    have hidx : jsIndex [0x0a, 0xFA, 0xFF, 0xFF, 0xFF, 0x0F] 0 = some 0x0a := by
      decide
    rw [parseLoop_step_len [0x0a, 0xFA, 0xFF, 0xFF, 0xFF, 0x0F] k 0 r 0x0a hlt
      hidx (by decide)]
    have hv : varintLoop [0x0a, 0xFA, 0xFF, 0xFF, 0xFF, 0x0F] ((0 : Int) + 1) 0 0 =
        (-6, 6) := by decide
    rw [hv]
    exact ih _

/-- Counterexample for C1: for the 128-byte service name `aaaa…a` the
encode/decode round trip loses a byte (the hardcoded length byte `0x80` is
misread as a varint continuation), so the decoded service is not the
original string. -/
theorem claim_C1_cex :
    (parseProtobufResponse 1 (requestSerialize (List.replicate 128 97))).map
        decodeService ≠ some (List.replicate 128 97) := by
  decide

/-- C9: `statusToString` realizes exactly the spec's classification table
(`1` or `SERVING` map to SERVING, `2` or `NOT_SERVING` to NOT_SERVING, `3`
or `SERVICE_UNKNOWN` to SERVICE_UNKNOWN, anything else to UNKNOWN), the
`serving` flag is true exactly when the classification is SERVING, and
decoding `[0x08, 0x01]` yields status `1`, classification SERVING, and
`serving = true`. -/
theorem claim_C9_status_classification :
    (∀ st : JsStatus, statusToString st = kindToString (classify st)) ∧
    (∀ st : JsStatus, isServing st = true ↔ classify st = StatusKind.SERVING) ∧
    (parseProtobufResponse 1 [0x08, 0x01]).map
        (fun r => (r.status, classify (statusOf r), isServing (statusOf r))) =
      some (some 1, StatusKind.SERVING, true) := by
  refine ⟨?_, ?_, by decide⟩
  · intro st
    unfold statusToString classify kindToString
    split_ifs <;> rfl
  · intro st
    unfold isServing classify
    split_ifs with h1 h2 h3
    · simp only [Bool.or_eq_true, beq_iff_eq]
      exact ⟨fun _ => trivial, fun _ => Or.symm h1⟩
    · simp only [Bool.or_eq_true, beq_iff_eq]
      exact ⟨fun hser => absurd (Or.symm hser) h1, fun hk => absurd hk (by decide)⟩
    · simp only [Bool.or_eq_true, beq_iff_eq]
      exact ⟨fun hser => absurd (Or.symm hser) h1, fun hk => absurd hk (by decide)⟩
    · simp only [Bool.or_eq_true, beq_iff_eq]
      exact ⟨fun hser => absurd (Or.symm hser) h1, fun hk => absurd hk (by decide)⟩

/-- C8: when a `client-key` entry is present, the transform returns exactly
the entries whose lowercased key is neither `client-key` nor
`authorization`, in their original order, followed by one appended
`Authorization` entry whose value is `TOTP ` plus the hex HMAC-SHA256 of
the decimal string of the 30-second-rounded unix time, keyed by the string
value of the first `client-key` entry; the signature has exactly 64
lowercase hex characters. -/
theorem claim_C8_metadata_auth (nowMs : Nat) (entries : List MetadataItem)
    (ce : MetadataItem)
    (hfind : entries.find? (fun e => toLowerAscii e.key == clientKeyStr) =
      some ce) :
    applyClientKeyAuthorization nowMs entries =
      entries.filter (fun e => (toLowerAscii e.key != clientKeyStr) &&
          (toLowerAscii e.key != authorizationLower)) ++
        [⟨authorizationCap, .vs (totpStr ++ hmacSha256Hex (jsToString ce.value)
            (natToDecimal (nowMs / 1000 - nowMs / 1000 % 30)))⟩] ∧
    (hmacSha256Hex (jsToString ce.value)
        (natToDecimal (nowMs / 1000 - nowMs / 1000 % 30))).length = 64 ∧
    ∀ c ∈ hmacSha256Hex (jsToString ce.value)
        (natToDecimal (nowMs / 1000 - nowMs / 1000 % 30)),
      isHexDigitCode c = true := by
  refine ⟨?_, hmacSha256Hex_length _ _, hmacSha256Hex_isHex _ _⟩
  unfold applyClientKeyAuthorization
  rw [hfind]

/-- Witness for C8 at the spec's example: entries `client-key = s3cr3t` and
`Authorization = Bearer old`, sampled at unix time 0. -/
theorem claim_C8_witness :
    ([⟨clientKeyStr, MetaValue.vs [115, 51, 99, 114, 51, 116]⟩,
      ⟨authorizationCap,
        MetaValue.vs [66, 101, 97, 114, 101, 114, 32, 111, 108, 100]⟩] :
        List MetadataItem).find?
        (fun e => toLowerAscii e.key == clientKeyStr) =
      some ⟨clientKeyStr, MetaValue.vs [115, 51, 99, 114, 51, 116]⟩ ∧
    (applyClientKeyAuthorization 0
        [⟨clientKeyStr, MetaValue.vs [115, 51, 99, 114, 51, 116]⟩,
         ⟨authorizationCap,
           MetaValue.vs [66, 101, 97, 114, 101, 114, 32, 111, 108, 100]⟩] =
      [⟨clientKeyStr, MetaValue.vs [115, 51, 99, 114, 51, 116]⟩,
       ⟨authorizationCap,
         MetaValue.vs [66, 101, 97, 114, 101, 114, 32, 111, 108, 100]⟩].filter
          (fun e => (toLowerAscii e.key != clientKeyStr) &&
            (toLowerAscii e.key != authorizationLower)) ++
        [⟨authorizationCap,
          MetaValue.vs (totpStr ++
            hmacSha256Hex [115, 51, 99, 114, 51, 116]
              (natToDecimal (0 / 1000 - 0 / 1000 % 30)))⟩] ∧
      (hmacSha256Hex [115, 51, 99, 114, 51, 116]
          (natToDecimal (0 / 1000 - 0 / 1000 % 30))).length = 64 ∧
      ∀ c ∈ hmacSha256Hex [115, 51, 99, 114, 51, 116]
          (natToDecimal (0 / 1000 - 0 / 1000 % 30)),
        isHexDigitCode c = true) :=
  ⟨by decide,
   claim_C8_metadata_auth 0
     [⟨clientKeyStr, MetaValue.vs [115, 51, 99, 114, 51, 116]⟩,
      ⟨authorizationCap,
        MetaValue.vs [66, 101, 97, 114, 101, 114, 32, 111, 108, 100]⟩]
     ⟨clientKeyStr, MetaValue.vs [115, 51, 99, 114, 51, 116]⟩ (by decide)⟩

/-- C1 (amended): for every service string (a valid UTF-8 byte string) of at
most 127 bytes, decoding the encoder's buffer recovers the original string
exactly — the empty string maps to the empty buffer, whose decode has no
field-1 entry and yields the default empty service — and the decoded
result's `error_message` is absent.  For byte lengths of 128 and above the
round trip fails (hardcoded single length byte), see the counterexample. -/
theorem claim_C1_roundtrip (sb : List Nat) (hvalid : utf8Clean sb = sb)
    (hlen : sb.length ≤ 127) :
    ∃ r : ParseResult, parseProtobufResponse 1 (requestSerialize sb) = some r ∧
      decodeService r = sb ∧ r.error_message = none := by
  cases sb with
  | nil =>
    refine ⟨emptyResult, ?_, by decide, by decide⟩
    unfold parseProtobufResponse
    rw [show requestSerialize [] = [] from rfl]
    exact parseLoop_exit [] 1 0 emptyResult (by simp)
  | cons c cs =>
    have hlen' : (c :: cs).length ≤ 127 := hlen
    have hL : (c :: cs).length = cs.length + 1 := by simp
    have hreq : requestSerialize (c :: cs) =
        0x0a :: (c :: cs).length :: (c :: cs) := by
      unfold requestSerialize
      rw [if_neg (by omega), Nat.mod_eq_of_lt (by omega)]
    refine ⟨applyLenField emptyResult 1 (c :: cs), ?_, ?_, ?_⟩
    · unfold parseProtobufResponse
      rw [hreq]
      have hltB : (0 : Int) <
          (((0x0a :: (c :: cs).length :: (c :: cs)).length : Nat) : Int) := by
        simp only [List.length_cons]
        push_cast
        omega
      have hidxB : jsIndex (0x0a :: (c :: cs).length :: (c :: cs)) 0 =
          some 0x0a := by
        simpa using jsIndex_nat (0x0a :: (c :: cs).length :: (c :: cs)) 0
      have hstep := parseLoop_step_len (0x0a :: (c :: cs).length :: (c :: cs)) 0 0
        emptyResult 0x0a hltB hidxB (by decide)
      rw [show (0 : Nat) + 1 = 1 from rfl] at hstep
      have hterm : IsTermVarint [(c :: cs).length] = true := by
        simp only [IsTermVarint]
        rw [ball_and128 _ (by omega)]
        rfl
      have hone : varintLoop [(c :: cs).length] 0 0 0 =
          (((c :: cs).length : Int), 1) := by
        have hidx0 : jsIndex [(c :: cs).length] 0 = some (c :: cs).length := by
          simpa using jsIndex_nat [(c :: cs).length] 0
        rw [varintLoop_step [(c :: cs).length] 0 0 0 (c :: cs).length
              (by simp) hidx0,
            ball_and127 _ (by omega), if_pos (ball_and128 _ (by omega)),
            jsOr32_accum 0 (c :: cs).length 0 (le_refl 0) (by norm_num)
              (by omega) (by norm_num; omega)]
        simp
      have hv : varintLoop (0x0a :: (c :: cs).length :: (c :: cs))
          ((0 : Int) + 1) 0 0 = (((c :: cs).length : Int), 2) := by
        have hb : (0x0a :: (c :: cs).length :: (c :: cs)) =
            [0x0a] ++ ([(c :: cs).length] ++ (c :: cs)) := rfl
        have hoff : ((0 : Int) + 1) =
            ((([0x0a] : List Nat).length : Nat) : Int) := by simp
        rw [hb, hoff,
          varintLoop_append [(c :: cs).length] hterm [0x0a] (c :: cs) 0 0, hone]
        simp
      rw [hstep, hv]
      dsimp only
      rw [show (0x0a : Nat) >>> 3 = 1 from rfl]
      have hsub : jsSubarray (0x0a :: (c :: cs).length :: (c :: cs)) 2
          (2 + (((c :: cs).length : Nat) : Int)) = (c :: cs) := by
        have h := jsSubarray_extract [0x0a, (c :: cs).length] (c :: cs) []
        simpa using h
      rw [hsub, hvalid]
      refine parseLoop_exit _ 0 _ _ ?_
      simp only [List.length_cons]
      push_cast
      omega
    · simp [decodeService, getField, applyLenField, setField, emptyResult]
    · simp [applyLenField, emptyResult]

/-- Witness for C1 at the service string `OK` (`[0x4f, 0x4b]`). -/
theorem claim_C1_witness :
    utf8Clean [0x4f, 0x4b] = [0x4f, 0x4b] ∧
    ([0x4f, 0x4b] : List Nat).length ≤ 127 ∧
    ∃ r : ParseResult,
      parseProtobufResponse 1 (requestSerialize [0x4f, 0x4b]) = some r ∧
      decodeService r = [0x4f, 0x4b] ∧ r.error_message = none :=
  ⟨by decide, by decide, claim_C1_roundtrip [0x4f, 0x4b] (by decide) (by decide)⟩

end GrpcPassthrough
